import Mathlib

/-!
Verification of the bsdiff diff engine of this repository
(`pkg/bsdiff/bsdiff.go`) against its natural-language specification.

The Go source is shallowly embedded: byte buffers are `List Nat` (each
element `< 256`), Go `int` variables are `Int`, and every Go operation
that can panic at runtime (index out of range, invalid slice bounds) is
modelled by an `Except GoErr` computation that returns `.error .oob`
exactly where the Go runtime would panic.  Loops whose termination the
Go source does not make structurally evident are given explicit fuel;
exhausting the fuel yields `.error .fuel` (this never happens on the
concrete runs used below).
-/

namespace Bsdiff

/-- Error outcomes of the embedded Go code: `oob` models a runtime panic
(index/slice out of range), `err` models an explicitly returned non-nil
`error`, and `fuel` is the embedding's own guard for loops whose
termination is not structural. -/
inductive GoErr where
  | oob  : GoErr
  | err  : GoErr
  | fuel : GoErr
deriving DecidableEq, Repr

instance exceptDecEq {ε α : Type} [DecidableEq ε] [DecidableEq α] :
    DecidableEq (Except ε α) := fun a b =>
  match a, b with
  | .ok x, .ok y => if h : x = y then .isTrue (by simp [h]) else .isFalse (by simp [h])
  | .error x, .error y => if h : x = y then .isTrue (by simp [h]) else .isFalse (by simp [h])
  | .ok _, .error _ => .isFalse (by simp)
  | .error _, .ok _ => .isFalse (by simp)

/-- Checked read `l[i]` of a Go byte slice: Go panics unless `0 ≤ i < len l`. -/
def idxB (l : List Nat) (i : Int) : Except GoErr Nat :=
  if 0 ≤ i ∧ i < (l.length : Int) then .ok (l.getD i.toNat 0) else .error .oob

/-- Checked read `l[i]` of a Go `[]int` slice. -/
def idxI (l : List Int) (i : Int) : Except GoErr Int :=
  if 0 ≤ i ∧ i < (l.length : Int) then .ok (l.getD i.toNat 0) else .error .oob

/-- Checked Go slice `l[v:]`: valid iff `0 ≤ v ≤ len l`. -/
def sliceFrom (l : List Nat) (v : Int) : Except GoErr (List Nat) :=
  if 0 ≤ v ∧ v ≤ (l.length : Int) then .ok (l.drop v.toNat) else .error .oob

/-- One step of `offtout`'s byte extraction: `y -= int(buf[i]); y = y / 256`. -/
def nextY (y : Nat) : Nat := (y - y % 256) / 256

/-- `offtout` from `bsdiff.go`: 8 little-endian magnitude bytes of `|x|`,
with the top bit of byte 7 set iff `x < 0`. -/
def offtout (x : Int) : List Nat :=
  let y0 := x.natAbs
  let y1 := nextY y0
  let y2 := nextY y1
  let y3 := nextY y2
  let y4 := nextY y3
  let y5 := nextY y4
  let y6 := nextY y5
  let y7 := nextY y6
  let b7 := y7 % 256
  [y0 % 256, y1 % 256, y2 % 256, y3 % 256, y4 % 256, y5 % 256, y6 % 256,
    if x < 0 then b7 ||| 128 else b7]

/-- Decoding described by the specification for the signed-64 wire format:
magnitude from the low 63 bits, sign from the top bit of byte 7. -/
def offtinSpec (b : List Nat) : Int :=
  let b7 := b.getD 7 0
  let mag : Int :=
    (b.getD 0 0 : Int) + 256 * ((b.getD 1 0 : Int) + 256 * ((b.getD 2 0 : Int) +
      256 * ((b.getD 3 0 : Int) + 256 * ((b.getD 4 0 : Int) + 256 * ((b.getD 5 0 : Int) +
      256 * ((b.getD 6 0 : Int) + 256 * ((b7 % 128 : Nat) : Int)))))))
  if 128 ≤ b7 then -mag else mag

/-- `matchlen` from `bsdiff.go`: length of the longest common starting run
of two byte slices. -/
def matchlen : List Nat → List Nat → Nat
  | a :: as, b :: bs => if a = b then matchlen as bs + 1 else 0
  | _, _ => 0

/-- `bytes.Compare a b < 0`: strict lexicographic order on byte slices,
a proper initial segment sorting first. -/
def lexLt : List Nat → List Nat → Bool
  | [], [] => false
  | [], _ :: _ => true
  | _ :: _, [] => false
  | a :: as, b :: bs => if a < b then true else if b < a then false else lexLt as bs

/-- `search` from `bsdiff.go`, with explicit recursion fuel (the range
size strictly shrinks at every recursive call, so `en - st + 1` units of
fuel always suffice; see the wrapper below). -/
def searchF (I : List Int) (old q : List Nat) : Nat → Nat → Nat → Except GoErr (Nat × Nat)
  | _, _, 0 => .error .fuel
  | st, en, fuel + 1 =>
    if en - st < 2 then
      match idxI I st with
      | .error e => .error e
      | .ok a =>
        match sliceFrom old a with
        | .error e => .error e
        | .ok sa =>
          match idxI I en with
          | .error e => .error e
          | .ok b =>
            match sliceFrom old b with
            | .error e => .error e
            | .ok sb =>
              let x := matchlen sa q
              let y := matchlen sb q
              if x > y then .ok (x, a.toNat) else .ok (y, b.toNat)
    else
      let m := st + (en - st) / 2
      match idxI I m with
      | .error e => .error e
      | .ok v =>
        let cmpln : Int := min ((old.length : Int) - v) (q.length : Int)
        if 0 ≤ v ∧ 0 ≤ cmpln ∧ v + cmpln ≤ (old.length : Int) then
          if lexLt ((old.drop v.toNat).take cmpln.toNat) (q.take cmpln.toNat) then
            searchF I old q m en fuel
          else
            searchF I old q st m fuel
        else .error .oob

/-- `search` from `bsdiff.go`.  Returns `(length, position)`; the Go code
returns the length and writes the position through a pointer. -/
def search (I : List Int) (old q : List Nat) (st en : Nat) :
    Except GoErr (Nat × Nat) :=
  searchF I old q st en (en - st + 1)

/-! ## qsufsort (suffix sorter) -/

/-- Key read `V[I[i] + h]` used everywhere inside `split`.  The Go code
performs it unchecked; out-of-range reads are modelled with default `0`
(their in-boundedness is the subject of the bounds-safety claim). -/
def keyAt (I V : List Int) (h i : Int) : Int :=
  V.getD ((I.getD i.toNat 0) + h).toNat 0

/-- Swap `I[a]` and `I[b]`. -/
def swapI (I : List Int) (a b : Int) : List Int :=
  let va := I.getD a.toNat 0
  let vb := I.getD b.toNat 0
  (I.set a.toNat vb).set b.toNat va

/-- Inner selection pass of `split`'s small-group branch: for fixed `k`
walk `i` while `k+i < bound`, tracking the minimum key `x` and the count
`j` of elements with that key swapped to the front. -/
def selInner (V : List Int) (h k bound : Int) :
    List Int → Int → Int → Int → Nat → List Int × Int × Int
  | I, x, j, _, 0 => (I, x, j)
  | I, x, j, i, c + 1 =>
    let key := keyAt I V h (k + i)
    let x' := if key < x then key else x
    let j' := if key < x then 0 else j
    if key = x' then selInner V h k bound (swapI I (k + j') (k + i)) x' (j' + 1) (i + 1) c
    else selInner V h k bound I x' j' (i + 1) c

/-- `for i = 0; i < cnt; i++ { V[I[base+i]] = to }`. -/
def vUpdate (I : List Int) (base tv : Int) : Int → List Int → Nat → List Int
  | _, V, 0 => V
  | i, V, c + 1 => vUpdate I base tv (i + 1) (V.set ((I.getD (base + i).toNat 0).toNat) tv) c

/-- The `ln < 16` branch of `split`: repeated selection of minimal-key
classes, updating `V` to the class end and marking singletons in `I`. -/
def smallSort (h bound : Int) : List Int → List Int → Int → Nat → Except GoErr (List Int × List Int)
  | I, V, k, 0 => if k < bound then .error .fuel else .ok (I, V)
  | I, V, k, fuel + 1 =>
    if k < bound then
      let x0 := keyAt I V h k
      let r := selInner V h k bound I x0 1 1 (bound - (k + 1)).toNat
      let I1 := r.1
      let j := r.2.2
      let V1 := vUpdate I1 k (k + j - 1) 0 V j.toNat
      let I2 := if j = 1 then I1.set k.toNat (-1) else I1
      smallSort h bound I2 V1 (k + j) fuel
    else .ok (I, V)

/-- Counting pass of `split`'s partition branch: number of keys `< x` and
number of keys `= x` in `I[i .. i+cnt)`. -/
def countKeys (V : List Int) (h x : Int) : List Int → Int → Int → Int → Nat → Int × Int
  | _, _, jj, kk, 0 => (jj, kk)
  | I, i, jj, kk, c + 1 =>
    let key := keyAt I V h i
    countKeys V h x I (i + 1) (if key < x then jj + 1 else jj)
      (if key = x then kk + 1 else kk) c

/-- First partition loop of `split`: `while i < jj`. -/
def partLoop1 (V : List Int) (h x jj kk : Int) :
    List Int → Int → Int → Int → Nat → Except GoErr (List Int × Int × Int)
  | I, i, j, k, 0 => if i < jj then .error .fuel else .ok (I, j, k)
  | I, i, j, k, fuel + 1 =>
    if i < jj then
      let key := keyAt I V h i
      if key < x then partLoop1 V h x jj kk I (i + 1) j k fuel
      else if key = x then partLoop1 V h x jj kk (swapI I i (jj + j)) i (j + 1) k fuel
      else partLoop1 V h x jj kk (swapI I i (kk + k)) i j (k + 1) fuel
    else .ok (I, j, k)

/-- Second partition loop of `split`: `while jj+j < kk`. -/
def partLoop2 (V : List Int) (h x jj kk : Int) :
    List Int → Int → Int → Nat → Except GoErr (List Int)
  | I, j, k, 0 => if jj + j < kk then .error .fuel else .ok I
  | I, j, k, fuel + 1 =>
    if jj + j < kk then
      if keyAt I V h (jj + j) = x then partLoop2 V h x jj kk I (j + 1) k fuel
      else partLoop2 V h x jj kk (swapI I (jj + j) (kk + k)) j (k + 1) fuel
    else .ok I

/-- `split` from `bsdiff.go`: ternary-partition refinement of the group
`I[start .. start+len)` by the key `V[I[·]+h]`. -/
def split : List Int → List Int → Int → Int → Int → Nat → Except GoErr (List Int × List Int)
  | I, V, start, len, h, 0 => (fun _ _ _ => .error .fuel) start len h
  | I, V, start, len, h, fuel + 1 =>
    if len < 16 then smallSort h (start + len) I V start (len.toNat + 1)
    else
      let x := keyAt I V h (start + len / 2)
      let cnt := countKeys V h x I start 0 0 len.toNat
      let jj := start + cnt.1
      let kk := jj + cnt.2
      match partLoop1 V h x jj kk I start 0 0 (3 * len.toNat + 3) with
      | .error e => .error e
      | .ok (I1, j, k) =>
        match partLoop2 V h x jj kk I1 j k (len.toNat + 3) with
        | .error e => .error e
        | .ok I2 =>
          match (if jj > start then split I2 V start (jj - start) h fuel else .ok (I2, V)) with
          | .error e => .error e
          | .ok (I3, V3) =>
            let V4 := vUpdate I3 jj (kk - 1) 0 V3 (kk - jj).toNat
            let I4 := if jj = kk - 1 then I3.set jj.toNat (-1) else I3
            if start + len > kk then split I4 V4 kk (start + len - kk) h fuel
            else .ok (I4, V4)

/-- One left-to-right coalescing scan of the doubling loop body: combined
sorted runs are accumulated in `ln` and flushed as `I[i-ln] = -ln`;
unsorted groups are handed to `split`. -/
def scanPass (n : Nat) (h : Int) (sfuel : Nat) :
    List Int → List Int → Int → Int → Nat → Except GoErr (List Int × List Int)
  | I, V, i, ln, 0 =>
    if i < (n : Int) + 1 then .error .fuel
    else .ok (if ln ≠ 0 then (I.set (i - ln).toNat (-ln), V) else (I, V))
  | I, V, i, ln, fuel + 1 =>
    if i < (n : Int) + 1 then
      let Ii := I.getD i.toNat 0
      if Ii < 0 then scanPass n h sfuel I V (i - Ii) (ln - Ii) fuel
      else
        let I1 := if ln ≠ 0 then I.set (i - ln).toNat (-ln) else I
        let m := V.getD Ii.toNat 0 + 1 - i
        match split I1 V i m h sfuel with
        | .error e => .error e
        | .ok (I2, V2) => scanPass n h sfuel I2 V2 (i + m) 0 fuel
    else .ok (if ln ≠ 0 then (I.set (i - ln).toNat (-ln), V) else (I, V))

/-- The prefix-doubling loop: `for h = 1; I[0] != -(n+1); h += h`. -/
def doubling (n : Nat) : List Int → List Int → Int → Nat → Except GoErr (List Int × List Int)
  | I, V, _, 0 =>
    if I.getD 0 0 ≠ -((n : Int) + 1) then .error .fuel else .ok (I, V)
  | I, V, h, fuel + 1 =>
    if I.getD 0 0 ≠ -((n : Int) + 1) then
      match scanPass n h ((n + 16) * (n + 16)) I V 0 0 (n + 3) with
      | .error e => .error e
      | .ok (I1, V1) => doubling n I1 V1 (h + h) fuel
    else .ok (I, V)

/-- The running-sum pass `for i = 1; i < 256; i++ { b[i] += b[i-1] }`:
after it, slot `i` holds the sum of the original slots `0..i`; expressed
as the cumulative-sum recursion that produces the same table. -/
def prefixSum (acc : Int) : List Int → List Int
  | [] => []
  | b :: t => (acc + b) :: prefixSum (acc + b) t

/-- Bucket passes of phase 0 of `qsufsort`: histogram the bytes of
`buf`; prefix-sum (`for i = 1..255 { b[i] += b[i-1] }`); the right-shift
`for i = 255..1 { b[i] = b[i-1] }` followed by `b[0] = 0`, whose joint
effect is dropping the last slot and prepending `0`; then place each
position (`I[++buckets[buf[i]]] = i`).  Returns the final bucket table
and the raw placement array. -/
def qsufsortBuckets (buf : List Nat) : List Int × List Int :=
  let n := buf.length
  let bk0 : List Int := buf.foldl (fun bk c => bk.set c (bk.getD c 0 + 1)) (List.replicate 256 0)
  let bk1 := prefixSum 0 bk0
  let bk3 := 0 :: bk1.dropLast
  buf.enum.foldl
    (fun (p : List Int × List Int) e =>
      let bk := p.1.set e.2 (p.1.getD e.2 0 + 1)
      (bk, p.2.set (bk.getD e.2 0).toNat (e.1 : Int)))
    (bk3, List.replicate (n + 1) 0)

/-- The singleton-marking sweep
`for i = 1..255 { if b[i] == b[i-1]+1 { I[b[i]] = -1 } }`, expressed as a
sequential walk over the bucket table carrying the previous slot. -/
def markPass (prev : Int) (I : List Int) : List Int → List Int
  | [] => I
  | b :: t => markPass b (if b = prev + 1 then I.set b.toNat (-1) else I) t

/-- Remainder of phase 0 of `qsufsort`, consuming the bucket table `p.1`
and the placement `p.2`: set `I[0] = n`, fill `V[i] = buckets[buf[i]]`
with `V[n] = 0`, write `-1` into the single `I` slot of every singleton
bucket, and set `I[0] = -1`. -/
def qsufsortInit (buf : List Nat) (p : List Int × List Int) : List Int × List Int :=
  let n := buf.length
  let bk4 := p.1
  let I0 := (p.2.set 0 (n : Int))
  let V0 := buf.enum.foldl (fun V e => V.set e.1 (bk4.getD e.2 0)) (List.replicate (n + 1) 0)
  let V1 := V0.set n 0
  let I1 := match bk4 with
    | [] => I0
    | b :: t => markPass b I0 t
  let I2 := I1.set 0 (-1)
  (I2, V1)

/-- Final pass of `qsufsort`: `I[V[i]] = i`. -/
def finalize (n : Nat) (I V : List Int) : List Int :=
  (List.range (n + 1)).foldl (fun I i => I.set (V.getD i 0).toNat (i : Int)) I

/-- `qsufsort` from `bsdiff.go`, returning the final index array `I`. -/
def qsufsort (buf : List Nat) : Except GoErr (List Int) :=
  let n := buf.length
  let p := qsufsortInit buf (qsufsortBuckets buf)
  match doubling n p.1 p.2 1 (n + 3) with
  | .error e => .error e
  | .ok (I, V) => .ok (finalize n I V)

/-! ## The match/extend driver of `diffb` -/

/-- Wrapping Go `byte` subtraction `b - a` (mod 256). -/
def byteSub (b a : Nat) : Nat := (b + 256 - a % 256) % 256

/-- The integer state of `diffb`'s outer walk, together with the three
output streams accumulated so far. -/
structure DriverState where
  scan : Int
  ln : Int
  lastscan : Int
  lastpos : Int
  lastoffset : Int
  scsc : Int
  oldscore : Int
  pos : Int
  db : List Nat
  eb : List Nat
  ctrl : List (Int × Int × Int)
deriving DecidableEq, Repr

/-- The initial driver state. -/
def initState : DriverState :=
  ⟨0, 0, 0, 0, 0, 0, 0, 0, [], [], []⟩

/-- The statements executed at the top of each outer iteration of
`diffb`'s walk: `oldscore = 0; scsc += ln; scan = scsc`
(the inner loop's initialiser `for scan = scsc; ...`). -/
def outerTop (st : DriverState) : DriverState :=
  { st with oldscore := 0, scsc := st.scsc + st.ln, scan := st.scsc + st.ln }

/-- `for scsc < scan+ln { if scsc+lastoffset < oldsize && old[scsc+lastoffset] == new[scsc] { oldscore++ }; scsc++ }`,
run for `cnt` steps (`cnt` is computed as the exact trip count). -/
def scsLoop (old nw : List Nat) (lastoffset : Int) :
    Int → Int → Nat → Except GoErr (Int × Int)
  | scsc, oldscore, 0 => .ok (scsc, oldscore)
  | scsc, oldscore, c + 1 =>
    if scsc + lastoffset < (old.length : Int) then
      match idxB old (scsc + lastoffset) with
      | .error e => .error e
      | .ok a =>
        match idxB nw scsc with
        | .error e => .error e
        | .ok b =>
          scsLoop old nw lastoffset (scsc + 1) (if a = b then oldscore + 1 else oldscore) c
    else scsLoop old nw lastoffset (scsc + 1) oldscore c

/-- The candidate-search inner loop of `diffb`:
`for scan = scsc; scan < newsize; scan++ { ... }` (the initial
`scan = scsc` has already been performed by `outerTop`). -/
def innerLoop (I : List Int) (old nw : List Nat) :
    DriverState → Nat → Except GoErr DriverState
  | _, 0 => .error .fuel
  | st, fuel + 1 =>
    if st.scan < (nw.length : Int) then
      if 0 ≤ st.scan then
        match search I old (nw.drop st.scan.toNat) 0 old.length with
        | .error e => .error e
        | .ok lp =>
          let ln : Int := lp.1
          let pos : Int := lp.2
          match scsLoop old nw st.lastoffset st.scsc st.oldscore
              ((st.scan + ln - st.scsc).toNat) with
          | .error e => .error e
          | .ok so =>
            let st1 := { st with ln := ln, pos := pos, scsc := so.1, oldscore := so.2 }
            if st1.ln = st1.oldscore ∧ st1.ln ≠ 0 then .ok st1
            else if st1.ln > st1.oldscore + 8 then .ok st1
            else
              if st1.scan + st1.lastoffset < (old.length : Int) then
                match idxB old (st1.scan + st1.lastoffset) with
                | .error e => .error e
                | .ok a =>
                  match idxB nw st1.scan with
                  | .error e => .error e
                  | .ok b =>
                    innerLoop I old nw
                      { st1 with oldscore := (if a = b then st1.oldscore - 1 else st1.oldscore),
                                 scan := st1.scan + 1 } fuel
              else innerLoop I old nw { st1 with scan := st1.scan + 1 } fuel
      else .error .oob
    else .ok st

/-- Forward extension of the previous match: track the `(Sf, lenf)`
maximising `2*s - i` over `i` with `lastscan+i < scan` and
`lastpos+i < oldsize`. -/
def fwdLoop (old nw : List Nat) (lastscan lastpos scan : Int) :
    Int → Int → Int → Int → Nat → Except GoErr Int
  | _, _, lenf, i, 0 =>
    if lastscan + i < scan ∧ lastpos + i < (old.length : Int) then .error .fuel else .ok lenf
  | s, Sf, lenf, i, fuel + 1 =>
    if lastscan + i < scan ∧ lastpos + i < (old.length : Int) then
      match idxB old (lastpos + i) with
      | .error e => .error e
      | .ok a =>
        match idxB nw (lastscan + i) with
        | .error e => .error e
        | .ok b =>
          let s' := if a = b then s + 1 else s
          let i' := i + 1
          if s' * 2 - i' > Sf * 2 - lenf then fwdLoop old nw lastscan lastpos scan s' s' i' i' fuel
          else fwdLoop old nw lastscan lastpos scan s' Sf lenf i' fuel
    else .ok lenf

/-- Backward extension of the new match: track the `(Sb, lenb)`
maximising `2*s - i` over `i ≥ 1` with `scan ≥ lastscan+i` and `pos ≥ i`. -/
def bwdLoop (old nw : List Nat) (lastscan pos scan : Int) :
    Int → Int → Int → Int → Nat → Except GoErr Int
  | _, _, lenb, i, 0 =>
    if scan ≥ lastscan + i ∧ pos ≥ i then .error .fuel else .ok lenb
  | s, Sb, lenb, i, fuel + 1 =>
    if scan ≥ lastscan + i ∧ pos ≥ i then
      match idxB old (pos - i) with
      | .error e => .error e
      | .ok a =>
        match idxB nw (scan - i) with
        | .error e => .error e
        | .ok b =>
          let s' := if a = b then s + 1 else s
          if s' * 2 - i > Sb * 2 - lenb then bwdLoop old nw lastscan pos scan s' s' i (i + 1) fuel
          else bwdLoop old nw lastscan pos scan s' Sb lenb (i + 1) fuel
    else .ok lenb

/-- Overlap-resolution pass: slide a split point through the `overlap`
region, scoring `+1` for bytes explained by the previous match and `-1`
for bytes explained by the new match. -/
def ovLoop (old nw : List Nat) (lastscan lastpos scan pos lenf lenb overlap : Int) :
    Int → Int → Int → Int → Nat → Except GoErr Int
  | _, _, _, lens, 0 => .ok lens
  | i, s, Ss, lens, c + 1 =>
    match idxB nw (lastscan + lenf - overlap + i) with
    | .error e => .error e
    | .ok b1 =>
      match idxB old (lastpos + lenf - overlap + i) with
      | .error e => .error e
      | .ok a1 =>
        let s1 := if b1 = a1 then s + 1 else s
        match idxB nw (scan - lenb + i) with
        | .error e => .error e
        | .ok b2 =>
          match idxB old (pos - lenb + i) with
          | .error e => .error e
          | .ok a2 =>
            let s2 := if b2 = a2 then s1 - 1 else s1
            if s2 > Ss then ovLoop old nw lastscan lastpos scan pos lenf lenb overlap (i + 1) s2 s2 (i + 1) c
            else ovLoop old nw lastscan lastpos scan pos lenf lenb overlap (i + 1) s2 Ss lens c

/-- `db[dblen+i] = new[lastscan+i] - old[lastpos+i]` for `i < lenf`. -/
def dbBuild (old nw : List Nat) (lastpos lastscan : Int) : Int → Nat → Except GoErr (List Nat)
  | _, 0 => .ok []
  | i, c + 1 =>
    match idxB nw (lastscan + i) with
    | .error e => .error e
    | .ok b =>
      match idxB old (lastpos + i) with
      | .error e => .error e
      | .ok a =>
        match dbBuild old nw lastpos lastscan (i + 1) c with
        | .error e => .error e
        | .ok rest => .ok (byteSub b a :: rest)

/-- `eb[eblen+i] = new[lastscan+lenf+i]` for `i < gap`. -/
def ebBuild (nw : List Nat) (base : Int) : Int → Nat → Except GoErr (List Nat)
  | _, 0 => .ok []
  | i, c + 1 =>
    match idxB nw (base + i) with
    | .error e => .error e
    | .ok b =>
      match ebBuild nw base (i + 1) c with
      | .error e => .error e
      | .ok rest => .ok (b :: rest)

/-- The emit block of `diffb` (lines guarded by
`if ln != oldscore || scan == newsize`): extend, resolve overlap, append
to the diff/extra streams and the control list, update `last*`. -/
def emitStep (old nw : List Nat) (st : DriverState) : Except GoErr DriverState :=
  let oldsize : Int := old.length
  let newsize : Int := nw.length
  let ffuel := ((st.scan - st.lastscan).toNat + old.length + 2)
  match fwdLoop old nw st.lastscan st.lastpos st.scan 0 0 0 0 ffuel with
  | .error e => .error e
  | .ok lenf0 =>
    match (if st.scan < newsize then
             bwdLoop old nw st.lastscan st.pos st.scan 0 0 0 1 ffuel
           else .ok 0 : Except GoErr Int) with
    | .error e => .error e
    | .ok lenb0 =>
      match (if st.lastscan + lenf0 > st.scan - lenb0 then
               let overlap := st.lastscan + lenf0 - (st.scan - lenb0)
               match ovLoop old nw st.lastscan st.lastpos st.scan st.pos lenf0 lenb0 overlap
                   0 0 0 0 overlap.toNat with
               | .error e => .error e
               | .ok lens => .ok (lenf0 + lens - overlap, lenb0 - lens)
             else .ok (lenf0, lenb0) : Except GoErr (Int × Int)) with
      | .error e => .error e
      | .ok fb =>
        let lenf := fb.1
        let lenb := fb.2
        match dbBuild old nw st.lastpos st.lastscan 0 lenf.toNat with
        | .error e => .error e
        | .ok dbs =>
          let gap := (st.scan - lenb) - (st.lastscan + lenf)
          match ebBuild nw (st.lastscan + lenf) 0 gap.toNat with
          | .error e => .error e
          | .ok ebs =>
            if (st.db.length : Int) + lenf > newsize + 1 then .error .oob
            else if (st.eb.length : Int) + gap > newsize + 1 then .error .oob
            else
              .ok { st with
                db := st.db ++ dbs
                eb := st.eb ++ ebs
                ctrl := st.ctrl ++ [(lenf, gap, (st.pos - lenb) - (st.lastpos + lenf))]
                lastscan := st.scan - lenb
                lastpos := st.pos - lenb
                lastoffset := st.pos - st.scan }

/-- One full iteration of `diffb`'s outer walk: top-of-loop updates, the
candidate-search inner loop, then the emit block when
`ln != oldscore || scan == newsize`. -/
def outerIter (I : List Int) (old nw : List Nat) (fuel : Nat) (st : DriverState) :
    Except GoErr DriverState :=
  match innerLoop I old nw (outerTop st) fuel with
  | .error e => .error e
  | .ok st1 =>
    if st1.ln ≠ st1.oldscore ∨ st1.scan = (nw.length : Int) then emitStep old nw st1
    else .ok st1

/-- `while scan < newsize { ... }`. -/
def outerLoop (I : List Int) (old nw : List Nat) : DriverState → Nat → Except GoErr DriverState
  | st, 0 => if st.scan < (nw.length : Int) then .error .fuel else .ok st
  | st, fuel + 1 =>
    if st.scan < (nw.length : Int) then
      match outerIter I old nw (nw.length + 2) st with
      | .error e => .error e
      | .ok st1 => outerLoop I old nw st1 fuel
    else .ok st

/-- The decompressed content of a patch: the control triples and the raw
diff and extra streams, before compression and header assembly. -/
structure DiffResult where
  ctrl : List (Int × Int × Int)
  db : List Nat
  eb : List Nat
deriving DecidableEq, Repr

/-- `diffb` from `bsdiff.go`, up to compression: run `qsufsort`, then the
match/extend walk, and return the three raw streams. -/
def diffb (old nw : List Nat) : Except GoErr DiffResult :=
  match qsufsort old with
  | .error e => .error e
  | .ok I =>
    match outerLoop I old nw initState (4 * nw.length + 16) with
    | .error e => .error e
    | .ok st => .ok ⟨st.ctrl, st.db, st.eb⟩

/-- Serialisation of the control triples: three signed-64 fields per
record, in emission order. -/
def ctrlBytes (l : List (Int × Int × Int)) : List Nat :=
  l.foldr (fun t acc => offtout t.1 ++ offtout t.2.1 ++ offtout t.2.2 ++ acc) []

/-- ASCII `BSDIFF40`. -/
def magicBytes : List Nat := [66, 83, 68, 73, 70, 70, 52, 48]

/-- The 32-byte header `diffb` writes: magic, compressed control-stream
length, compressed diff-stream length, `|new|`. -/
def mkHeader (clen dlen nsize : Int) : List Nat :=
  magicBytes ++ offtout clen ++ offtout dlen ++ offtout nsize

/-- The complete patch byte string produced by `diffb`, parametric in the
opaque streaming compressor (the Go code uses bzip2 at best level; the
spec treats the compressor as an external collaborator).  The Go code
writes a placeholder header first and rewrites it in place after the
compressed lengths are known; the net bytes are assembled here directly. -/
def patchBytes (compress : List Nat → List Nat) (old nw : List Nat) :
    Except GoErr (List Nat) :=
  match diffb old nw with
  | .error e => .error e
  | .ok r =>
    let cb := compress (ctrlBytes r.ctrl)
    let dbc := compress r.db
    let ebc := compress r.eb
    .ok (mkHeader cb.length dbc.length nw.length ++ cb ++ dbc ++ ebc)

/-! ## Reference patch replay -/

/-- Modelled from the spec: the reverse operation `apply` (the `bspatch`
half of the pair, which is not part of the diff engine's sources) replays
the control triples in order — copy `x` bytes from `old` at the running
old-cursor corrected by the diff-stream bytes, append `y` extra-stream
bytes, then advance the old-cursor by `z`; out-of-range old-cursor
positions contribute nothing to the correction. -/
def replayOne (old : List Nat) (opos : Int) (dseg : List Nat) : List Nat :=
  dseg.enum.map (fun e =>
    if 0 ≤ opos + (e.1 : Int) ∧ opos + (e.1 : Int) < (old.length : Int) then
      (e.2 + old.getD (opos + (e.1 : Int)).toNat 0) % 256
    else e.2 % 256)

/-- Modelled from the spec: replay all control triples against `old`,
consuming the diff and extra streams; fails if a triple has a negative
copy or extra count or the streams are exhausted. -/
def replay (old : List Nat) : List (Int × Int × Int) → Int → List Nat → List Nat → Option (List Nat)
  | [], _, dbs, ebs => if dbs = [] ∧ ebs = [] then some [] else none
  | (x, y, z) :: rest, opos, dbs, ebs =>
    if 0 ≤ x ∧ 0 ≤ y ∧ x.toNat ≤ dbs.length ∧ y.toNat ≤ ebs.length then
      let seg := replayOne old opos (dbs.take x.toNat)
      match replay old rest (opos + x + z) (dbs.drop x.toNat) (ebs.drop y.toNat) with
      | none => none
      | some tail => some (seg ++ ebs.take y.toNat ++ tail)
    else none

/-- Modelled from the spec: `apply old patch-streams`. -/
def applySpec (old : List Nat) (r : DiffResult) : Option (List Nat) :=
  replay old r.ctrl 0 r.db r.eb

/-! ## putWriter -/

/-- The chunking constant of the wrapper layer. -/
def buffersize : Nat := 16384

/-- The chunked-write loop of `putWriter`, against a writer that accepts
every write in full; returns the bytes delivered to the writer. -/
def putWriterLoop (b : List Nat) : Int → List Nat → Nat → Except GoErr (List Nat)
  | _, _, 0 => .error .fuel
  | offs, acc, fuel + 1 =>
    if offs < (b.length : Int) then
      let n : Int := min (buffersize : Int) ((b.length : Int) - offs)
      if 0 ≤ offs ∧ offs ≤ n ∧ n ≤ (b.length : Int) then
        let chunk := (b.drop offs.toNat).take (n - offs).toNat
        if (chunk.length : Int) ≠ n then .error .err
        else putWriterLoop b (offs + n) (acc ++ chunk) fuel
      else .error .oob
    else .ok acc

/-- `putWriter` from `bsdiff.go` against a fully-accepting writer:
the bytes actually delivered, or the error/panic the Go code produces. -/
def putWriter (b : List Nat) : Except GoErr (List Nat) :=
  if b.length < buffersize then .ok b
  else putWriterLoop b 0 [] (b.length / buffersize + 2)

/-! ## Predicates used in the theorems -/

/-- All entries of `I` are valid offsets into a buffer of length `m`. -/
def boundedI (I : List Int) (m : Nat) : Prop := ∀ v ∈ I, 0 ≤ v ∧ v ≤ (m : Int)

instance boundedIDec (I : List Int) (m : Nat) : Decidable (boundedI I m) :=
  List.decidableBAll _ I

/-- The behaviour claimed for `search` on the range `[st, en]` of index
`I`, query `q` and buffer `old`, as a predicate on the returned value:
the position comes from `I[st..en]`, the length is the common-prefix
length at that position, and in the base case the larger endpoint match
wins, ties going to `en`. -/
def SearchSpec (I : List Int) (old q : List Nat) (st en : Nat)
    (r : Except GoErr (Nat × Nat)) : Prop :=
  ∃ ln pos, r = .ok (ln, pos) ∧
    (∃ k, st ≤ k ∧ k ≤ en ∧ pos = (I.getD k 0).toNat) ∧
    ln = matchlen (old.drop pos) q ∧
    (en - st < 2 →
      ln = max (matchlen (old.drop (I.getD st 0).toNat) q)
               (matchlen (old.drop (I.getD en 0).toNat) q) ∧
      (matchlen (old.drop (I.getD st 0).toNat) q ≤
          matchlen (old.drop (I.getD en 0).toNat) q →
        pos = (I.getD en 0).toNat) ∧
      (matchlen (old.drop (I.getD en 0).toNat) q <
          matchlen (old.drop (I.getD st 0).toNat) q →
        pos = (I.getD st 0).toNat))

/-! ## Signed-64 codec: lemmas and claim C8 -/

theorem lor128 (b : Nat) (hb : b < 128) : b ||| 128 = b + 128 := by
  have key : ∀ x : Fin 128, (x : Nat) ||| 128 = (x : Nat) + 128 := by decide
  exact key ⟨b, hb⟩

theorem nextY_eq (y : Nat) : nextY y = y / 256 := by
  unfold nextY; omega

/-- The signed-64 encoding decodes back to its input for every magnitude
below `2^63`. -/
theorem offtout_decode (x : Int) (hx : x.natAbs < 2 ^ 63) :
    offtinSpec (offtout x) = x := by
  rcases x with n | n
  · simp only [Int.ofNat_eq_natCast] at hx ⊢
    have hx' : n < 2 ^ 63 := by omega
    have hpos : ¬ ((n : Int) < 0) := by omega
    simp only [offtout, offtinSpec, nextY_eq, Int.natAbs_ofNat, if_neg hpos,
      List.getD_cons_zero, List.getD_cons_succ]
    rw [if_neg (by omega)]
    push_cast
    omega
  · simp only [Int.natAbs_negSucc] at hx
    have hx' : n + 1 < 2 ^ 63 := hx
    have hneg : Int.negSucc n < 0 := Int.negSucc_lt_zero n
    simp only [offtout, offtinSpec, nextY_eq, Int.natAbs_negSucc, if_pos hneg,
      List.getD_cons_zero, List.getD_cons_succ]
    rw [lor128 _ (by omega)]
    rw [if_pos (by omega)]
    rw [Int.negSucc_eq]
    push_cast
    omega

/-- C8: `offtout x` writes the magnitude of `x` into bytes 0..7 in
little-endian base-256 and sets the top bit of byte 7 iff `x < 0`;
consequently decoding (magnitude from the low 63 bits, sign from the top
bit of byte 7) recovers every `x` with `|x| < 2^63`, and the encoding of
`-0` equals the encoding of `+0`. -/
theorem offtout_roundtrip :
    (∀ x : Int, x.natAbs < 2 ^ 63 → offtinSpec (offtout x) = x) ∧
      offtout (-0) = offtout 0 :=
  ⟨fun x hx => offtout_decode x hx, rfl⟩

theorem offtout_roundtrip_witness :
    Int.natAbs (-5) < 2 ^ 63 ∧ offtinSpec (offtout (-5)) = -5 :=
  ⟨by decide, offtout_roundtrip.1 (-5) (by decide)⟩

/-! ## Concrete qsufsort runs used by the driver theorems -/

set_option maxRecDepth 1000000 in
theorem qsufsort_nil : qsufsort [] = .ok [0] := by
  have h : qsufsortBuckets [] = (List.replicate 256 0, [0]) := by decide
  simp only [qsufsort]; rw [h]; decide

set_option maxRecDepth 1000000 in
theorem qsufsort_b0 : qsufsort [0] = .ok [1, 0] := by
  have h : qsufsortBuckets [0] = (List.replicate 256 1, [0, 0]) := by decide
  simp only [qsufsort]; rw [h]; decide

set_option maxRecDepth 1000000 in
theorem qsufsort_b1 : qsufsort [1] = .ok [1, 0] := by
  have h : qsufsortBuckets [1] = ((0 : Int) :: List.replicate 255 1, [0, 0]) := by decide
  simp only [qsufsort]; rw [h]; decide

set_option maxRecDepth 1000000 in
theorem qsufsort_b2 : qsufsort [2] = .ok [1, 0] := by
  have h : qsufsortBuckets [2] =
      ((0 : Int) :: 0 :: List.replicate 254 1, [0, 0]) := by decide
  simp only [qsufsort]; rw [h]; decide

set_option maxRecDepth 1000000 in
theorem qsufsort_b5 : qsufsort [5] = .ok [1, 0] := by
  have h : qsufsortBuckets [5] =
      ((0 : Int) :: 0 :: 0 :: 0 :: 0 :: List.replicate 251 1, [0, 0]) := by decide
  simp only [qsufsort]; rw [h]; decide

set_option maxRecDepth 1000000 in
theorem qsufsort_b00 : qsufsort [0, 0] = .ok [2, 1, 0] := by
  have h : qsufsortBuckets [0, 0] = (List.replicate 256 2, [0, 0, 1]) := by decide
  simp only [qsufsort]; rw [h]; decide

set_option maxRecDepth 1000000 in
theorem qsufsort_b314 : qsufsort [3, 1, 4] = .ok [3, 1, 0, 2] := by
  have h : qsufsortBuckets [3, 1, 4] =
      ((0 : Int) :: 1 :: 1 :: 2 :: List.replicate 252 3, [0, 1, 0, 2]) := by decide
  simp only [qsufsort]; rw [h]; decide

/-! ## Search: lemmas and claim C4 -/

theorem getD_mem {α : Type} {l : List α} {k : Nat} (d : α) (h : k < l.length) :
    l.getD k d ∈ l := by
  induction l generalizing k with
  | nil => simp at h
  | cons a t ih =>
    cases k with
    | zero => simp [List.getD]
    | succ k =>
      simp only [List.getD_cons_succ]
      exact List.mem_cons_of_mem _ (ih (by simpa using h))

theorem boundedI_getD {I : List Int} {m : Nat} (hb : boundedI I m) {k : Nat}
    (h : k < I.length) : 0 ≤ I.getD k 0 ∧ I.getD k 0 ≤ (m : Int) :=
  hb _ (getD_mem 0 h)

theorem idxI_nat (I : List Int) (k : Nat) (h : k < I.length) :
    idxI I (k : Int) = .ok (I.getD k 0) := by
  unfold idxI
  rw [if_pos ⟨by omega, by exact_mod_cast h⟩]
  simp

theorem sliceFrom_ok (l : List Nat) (v : Int) (h0 : 0 ≤ v) (h1 : v ≤ (l.length : Int)) :
    sliceFrom l v = .ok (l.drop v.toNat) := by
  unfold sliceFrom
  rw [if_pos ⟨h0, h1⟩]

theorem searchF_base (I : List Int) (old q : List Nat) (st en : Nat) (fuel : Nat)
    (h2 : en - st < 2) (hst : st ≤ en) (hen : en < I.length)
    (hb : boundedI I old.length) :
    SearchSpec I old q st en (searchF I old q st en (fuel + 1)) := by
  have hstlen : st < I.length := lt_of_le_of_lt hst hen
  obtain ⟨ha0, ha1⟩ := boundedI_getD hb hstlen
  obtain ⟨hc0, hc1⟩ := boundedI_getD hb hen
  unfold SearchSpec
  simp only [searchF]
  rw [if_pos h2]
  simp only [idxI_nat I st hstlen, idxI_nat I en hen,
    sliceFrom_ok old (I.getD st 0) ha0 ha1, sliceFrom_ok old (I.getD en 0) hc0 hc1]
  by_cases hxy : matchlen (old.drop (I.getD st 0).toNat) q >
      matchlen (old.drop (I.getD en 0).toNat) q
  · rw [if_pos hxy]
    refine ⟨_, _, rfl, ⟨st, le_refl st, hst, rfl⟩, rfl, fun _ => ⟨?_, ?_, fun _ => rfl⟩⟩
    · omega
    · intro hle; omega
  · rw [if_neg hxy]
    refine ⟨_, _, rfl, ⟨en, hst, le_refl en, rfl⟩, rfl, fun _ => ⟨?_, fun _ => rfl, ?_⟩⟩
    · omega
    · intro hlt; omega

theorem searchF_spec (I : List Int) (old q : List Nat) (fuel : Nat) :
    ∀ (st en : Nat), en - st < fuel → st ≤ en → en < I.length →
    boundedI I old.length →
    SearchSpec I old q st en (searchF I old q st en fuel) := by
  induction fuel with
  | zero => intro st en hd; omega
  | succ d ih =>
    intro st en hd hst hen hb
    by_cases h2 : en - st < 2
    · exact searchF_base I old q st en d h2 hst hen hb
    · have hmlt : st + (en - st) / 2 < I.length := by omega
      obtain ⟨hv0, hv1⟩ := boundedI_getD hb hmlt
      unfold SearchSpec
      simp only [searchF]
      rw [if_neg h2]
      simp only [idxI_nat I (st + (en - st) / 2) hmlt]
      set v := I.getD (st + (en - st) / 2) 0 with hvdef
      have hcond : 0 ≤ v ∧ 0 ≤ min ((old.length : Int) - v) (q.length : Int) ∧
          v + min ((old.length : Int) - v) (q.length : Int) ≤ (old.length : Int) := by
        refine ⟨hv0, le_min (by omega) (by positivity), ?_⟩
        have := min_le_left ((old.length : Int) - v) (q.length : Int)
        omega
      rw [if_pos hcond]
      by_cases hlex : lexLt ((old.drop v.toNat).take
          (min ((old.length : Int) - v) (q.length : Int)).toNat)
          (q.take (min ((old.length : Int) - v) (q.length : Int)).toNat) = true
      · rw [if_pos hlex]
        obtain ⟨ln, pos, heq, ⟨k, hk1, hk2, hk3⟩, hm, _⟩ :=
          ih (st + (en - st) / 2) en (by omega) (by omega) hen hb
        exact ⟨ln, pos, heq, ⟨k, by omega, hk2, hk3⟩, hm, fun hlt => absurd hlt h2⟩
      · rw [if_neg hlex]
        obtain ⟨ln, pos, heq, ⟨k, hk1, hk2, hk3⟩, hm, _⟩ :=
          ih st (st + (en - st) / 2) (by omega) (by omega) hmlt hb
        exact ⟨ln, pos, heq, ⟨k, hk1, by omega, hk3⟩, hm, fun hlt => absurd hlt h2⟩

/-- C4 (amended): for every call `search(I, old, q, st, en)` with
`st ≤ en < |I|` whose index entries are valid offsets into `old` (as is
the case for the calls the diff driver issues), the function returns a
pair `(len, pos)` with `pos ∈ {I[k] : k ∈ [st, en]}` and `len` equal to
the common-prefix length of `old[pos..]` and `q`; in the base case
`en − st < 2` it returns the larger of `matchlen(old[I[st]..], q)` and
`matchlen(old[I[en]..], q)`, and when the two lengths are equal it breaks
the tie toward `en` (i.e. `pos = I[en]`), not toward `st`. -/
theorem search_spec (I : List Int) (old q : List Nat) (st en : Nat)
    (hst : st ≤ en) (hen : en < I.length) (hb : boundedI I old.length) :
    SearchSpec I old q st en (search I old q st en) :=
  searchF_spec I old q (en - st + 1) st en (by omega) hst hen hb

theorem search_spec_witness :
    SearchSpec [1, 0] [0] [0] 0 1 (search [1, 0] [0] [0] 0 1) :=
  search_spec [1, 0] [0] [0] 0 1 (by decide) (by decide) (by decide)

set_option maxRecDepth 100000 in
/-- C4 counterexample: in the run of `diff(old = [0x00], new = [0x05])`
the driver calls `search` with `I = qsufsort([0x00]) = [1, 0]`, `st = 0`,
`en = 1`, `q = [0x05]`; both endpoint match lengths are `0` (a tie), and
the code returns `pos = I[en] = 0`, not `pos = I[st] = 1` as the claim's
tie-to-`st` rule requires. -/
theorem search_tie_counterexample :
    qsufsort [0] = .ok [1, 0] ∧
    search [1, 0] [0] [5] 0 1 = .ok (0, 0) ∧
    matchlen (List.drop (([1, 0] : List Int).getD 0 0).toNat [0]) [5] =
      matchlen (List.drop (([1, 0] : List Int).getD 1 0).toNat [0]) [5] ∧
    (([1, 0] : List Int).getD 0 0).toNat ≠ 0 := by
  refine ⟨qsufsort_b0, by decide, by decide, by decide⟩

/-! ## The driver bug (claims C1, C5, C6, C7) -/

set_option maxRecDepth 1000000 in
set_option maxHeartbeats 4000000 in
/-- C1: the universal round-trip claim fails on this code.  The outer
walk's top-of-iteration advance was mistranslated from the C original
(`for(scsc=scan+=len;...)`, i.e. `scan += len; scsc = scan`) into
`scsc += ln; scan = scsc`, which advances `scan` from the carried `scsc`;
already for `old = new = [0x01]` this pushes `scan` to `2 > |new|` and
the emit block then reads `newbin[1]` — an index-out-of-range panic —
so no patch is produced at all.  On runs where the walk happens to stay
in bounds (here `old = [0x05]`, `new = [0x05, 0x07]`) the emitted streams
do replay to `new`. -/
theorem diffb_roundtrip_panic :
    diffb [5] [5, 7] = .ok ⟨[(1, 1, -1)], [0], [7]⟩ ∧
    applySpec [5] ⟨[(1, 1, -1)], [0], [7]⟩ = some [5, 7] ∧
    diffb [1] [1] = .error .oob := by
  refine ⟨?_, by decide, ?_⟩
  · simp only [diffb]; rw [qsufsort_b5]; decide
  · simp only [diffb]; rw [qsufsort_b1]; decide

/-- C5 (amended): at the top of every outer iteration the implementation
sets `oldscore = 0`, advances `scsc` by `ln` (carrying `scsc`'s value
across outer iterations), and initialises `scan = scsc`; `scsc` therefore
still equals `scan` when the candidate-search inner loop begins, but
`scan` is advanced from the carried `scsc`, not from its own previous
value by `ln`. -/
theorem outerTop_spec (st : DriverState) :
    (outerTop st).oldscore = 0 ∧
    (outerTop st).scsc = st.scsc + st.ln ∧
    (outerTop st).scan = (outerTop st).scsc ∧
    (outerTop st).lastscan = st.lastscan ∧
    (outerTop st).lastpos = st.lastpos ∧
    (outerTop st).lastoffset = st.lastoffset :=
  ⟨rfl, rfl, rfl, rfl, rfl, rfl⟩

set_option maxRecDepth 1000000 in
set_option maxHeartbeats 4000000 in
/-- C5 counterexample: on `old = new = [0x00, 0x00]` the state after the
first outer iteration has `scan = 0`, `ln = 1`, `scsc = 1`; the top of
the second iteration sets `scan = scsc + ln = 2`, whereas the claim's
`scan += ln; scsc = scan` rule would give `scan = 1` — the code carries
`scsc` across outer iterations instead of resetting it from `scan`. -/
theorem outerTop_counterexample :
    qsufsort [0, 0] = .ok [2, 1, 0] ∧
    outerIter [2, 1, 0] [0, 0] [0, 0] 4 initState =
      .ok ⟨0, 1, 0, 0, 0, 1, 1, 1, [], [], []⟩ ∧
    (outerTop ⟨0, 1, 0, 0, 0, 1, 1, 1, [], [], []⟩).scan = 2 ∧
    (⟨0, 1, 0, 0, 0, 1, 1, 1, [], [], []⟩ : DriverState).scan +
      (⟨0, 1, 0, 0, 0, 1, 1, 1, [], [], []⟩ : DriverState).ln = 1 ∧
    (2 : Int) ≠ 1 := by
  refine ⟨qsufsort_b00, by decide, by decide, by decide, by decide⟩

set_option maxRecDepth 1000000 in
set_option maxHeartbeats 4000000 in
/-- C6: degenerate inputs — `|old| = 0` and `|new| = 0` do produce
well-formed patches, and the `old = [], new = [0x01, 0x02]` scenario
yields exactly the single control triple `(0, 2, 0)` with extra stream
`[0x01, 0x02]`; but the third degenerate family fails: for
`old = new = [0x02]` the code panics with an index out of range instead
of producing a patch. -/
theorem diffb_degenerate :
    diffb [] [1, 2] = .ok ⟨[(0, 2, 0)], [], [1, 2]⟩ ∧
    diffb [] [] = .ok ⟨[], [], []⟩ ∧
    diffb [3, 1, 4] [] = .ok ⟨[], [], []⟩ ∧
    diffb [2] [2] = .error .oob := by
  refine ⟨?_, ?_, ?_, ?_⟩
  · simp only [diffb]; rw [qsufsort_nil]; decide
  · simp only [diffb]; rw [qsufsort_nil]; decide
  · simp only [diffb]; rw [qsufsort_b314]; decide
  · simp only [diffb]; rw [qsufsort_b2]; decide

set_option maxRecDepth 1000000 in
set_option maxHeartbeats 4000000 in
/-- C7: for `X = [0x00, 0x00]` `diff(X, X)` does produce first fields
summing to `|X|`, an empty extra stream and an all-zero diff stream; but
the claim's universal quantification over `X` fails: for `X = [0x00]`
the code panics with an index out of range and yields no patch. -/
theorem diffb_identity :
    diffb [0, 0] [0, 0] = .ok ⟨[(2, 0, -1)], [0, 0], []⟩ ∧
    diffb [0] [0] = .error .oob := by
  refine ⟨?_, ?_⟩
  · simp only [diffb]; rw [qsufsort_b00]; decide
  · simp only [diffb]; rw [qsufsort_b0]; decide

/-! ## putWriter (claim C9) -/

/-! ## putWriter (claim C9) -/

/-- C9: `putWriter` delivers short slices intact, but the chunking loop
slices `b[offs:n]` where the source intends `b[offs:offs+n]`: against a
fully-accepting writer, a 16385-byte input panics on the inverted slice
`b[16384:1]`, and an input of twice the buffer size writes an empty
second chunk and returns a spurious short-write error; so the claim that
every byte slice is written in full with a nil error fails for every
`b` longer than 16384 bytes. -/
theorem putWriter_chunk_bug :
    putWriter (List.replicate 16383 7) = .ok (List.replicate 16383 7) ∧
    putWriter (List.replicate 16385 7) = .error .oob ∧
    putWriter (List.replicate 32768 7) = .error .err := by
  refine ⟨?_, ?_, ?_⟩
  · unfold putWriter buffersize
    rw [if_pos (by rw [List.length_replicate]; norm_num)]
  · have hb : ∀ b : List Nat, b.length = 16385 → putWriter b = .error .oob := by
      intro b hlen
      simp only [putWriter, putWriterLoop, buffersize, hlen, List.length_take,
        List.length_drop]
      norm_num
    exact hb _ (by rw [List.length_replicate])
  · have hb : ∀ b : List Nat, b.length = 32768 → putWriter b = .error .err := by
      intro b hlen
      simp only [putWriter, putWriterLoop, buffersize, hlen, List.length_take,
        List.length_drop]
      norm_num
    exact hb _ (by rw [List.length_replicate])

/-! ## Patch layout (claim C2) -/

theorem offtout_length (x : Int) : (offtout x).length = 8 := rfl

theorem mkHeader_length (a b c : Int) : (mkHeader a b c).length = 32 := by
  simp [mkHeader, magicBytes, offtout_length]

theorem offtout_decode_nat (n : Nat) (h : n < 2 ^ 63) :
    offtinSpec (offtout (n : Int)) = (n : Int) :=
  offtout_decode _ (by simpa using h)

/-- C2 (amended): the patch produced by `diffb` begins with a 32-byte
header — bytes 0..7 are ASCII `BSDIFF40`, bytes 8..15 and 16..23 hold the
compressed control-stream and diff-stream lengths in the signed-64
encoding, and bytes 24..31 decode to `|new|` — and the three compressed
streams follow this 32-byte header immediately; no SHA-256 digest of
`old` is computed or stored.  Stated for an arbitrary stream compressor,
which the code treats as an opaque collaborator. -/
theorem diffb_header (compress : List Nat → List Nat) (old nw : List Nat)
    (r : DiffResult) (h : diffb old nw = .ok r)
    (h1 : (compress (ctrlBytes r.ctrl)).length < 2 ^ 63)
    (h2 : (compress r.db).length < 2 ^ 63)
    (h3 : nw.length < 2 ^ 63) :
    ∃ p, patchBytes compress old nw = .ok p ∧
      p.take 8 = magicBytes ∧
      offtinSpec ((p.drop 8).take 8) = ((compress (ctrlBytes r.ctrl)).length : Int) ∧
      offtinSpec ((p.drop 16).take 8) = ((compress r.db).length : Int) ∧
      offtinSpec ((p.drop 24).take 8) = (nw.length : Int) ∧
      p.drop 32 = compress (ctrlBytes r.ctrl) ++ compress r.db ++ compress r.eb := by
  refine ⟨mkHeader (compress (ctrlBytes r.ctrl)).length (compress r.db).length nw.length ++
    (compress (ctrlBytes r.ctrl) ++ (compress r.db ++ compress r.eb)), ?_, ?_, ?_, ?_, ?_, ?_⟩
  · simp only [patchBytes]
    rw [h]
    simp [List.append_assoc]
  · rw [show mkHeader ((compress (ctrlBytes r.ctrl)).length : Int)
        ((compress r.db).length : Int) (nw.length : Int) ++
        (compress (ctrlBytes r.ctrl) ++ (compress r.db ++ compress r.eb)) =
        magicBytes ++ ((offtout ((compress (ctrlBytes r.ctrl)).length : Int) ++
          (offtout ((compress r.db).length : Int) ++ offtout ((nw.length : Int)))) ++
          (compress (ctrlBytes r.ctrl) ++ (compress r.db ++ compress r.eb)))
      by simp [mkHeader, List.append_assoc]]
    exact List.take_left' rfl
  · rw [show mkHeader ((compress (ctrlBytes r.ctrl)).length : Int)
        ((compress r.db).length : Int) (nw.length : Int) ++
        (compress (ctrlBytes r.ctrl) ++ (compress r.db ++ compress r.eb)) =
        magicBytes ++ (offtout ((compress (ctrlBytes r.ctrl)).length : Int) ++
          ((offtout ((compress r.db).length : Int) ++ offtout ((nw.length : Int))) ++
          (compress (ctrlBytes r.ctrl) ++ (compress r.db ++ compress r.eb))))
      by simp [mkHeader, List.append_assoc]]
    rw [List.drop_left' (show (magicBytes : List Nat).length = 8 from rfl)]
    rw [List.take_left' (offtout_length _)]
    exact offtout_decode_nat _ h1
  · rw [show mkHeader ((compress (ctrlBytes r.ctrl)).length : Int)
        ((compress r.db).length : Int) (nw.length : Int) ++
        (compress (ctrlBytes r.ctrl) ++ (compress r.db ++ compress r.eb)) =
        (magicBytes ++ offtout ((compress (ctrlBytes r.ctrl)).length : Int)) ++
          (offtout ((compress r.db).length : Int) ++ (offtout ((nw.length : Int)) ++
          (compress (ctrlBytes r.ctrl) ++ (compress r.db ++ compress r.eb))))
      by simp [mkHeader, List.append_assoc]]
    rw [List.drop_left' (show ((magicBytes : List Nat) ++
      offtout ((compress (ctrlBytes r.ctrl)).length : Int)).length = 16 by
        simp [magicBytes, offtout_length])]
    rw [List.take_left' (offtout_length _)]
    exact offtout_decode_nat _ h2
  · rw [show mkHeader ((compress (ctrlBytes r.ctrl)).length : Int)
        ((compress r.db).length : Int) (nw.length : Int) ++
        (compress (ctrlBytes r.ctrl) ++ (compress r.db ++ compress r.eb)) =
        ((magicBytes ++ offtout ((compress (ctrlBytes r.ctrl)).length : Int)) ++
          offtout ((compress r.db).length : Int)) ++
          (offtout ((nw.length : Int)) ++
          (compress (ctrlBytes r.ctrl) ++ (compress r.db ++ compress r.eb)))
      by simp [mkHeader, List.append_assoc]]
    rw [List.drop_left' (show (((magicBytes : List Nat) ++
      offtout ((compress (ctrlBytes r.ctrl)).length : Int)) ++
      offtout ((compress r.db).length : Int)).length = 24 by
        simp [magicBytes, offtout_length])]
    rw [List.take_left' (offtout_length _)]
    exact offtout_decode_nat _ h3
  · rw [List.drop_left' (mkHeader_length _ _ _)]
    exact (List.append_assoc _ _ _).symm

set_option maxRecDepth 1000000 in
theorem diffb_header_witness :
    ∃ p, patchBytes (fun b => b) [] [1, 2] = .ok p ∧
      p.take 8 = magicBytes ∧
      offtinSpec ((p.drop 8).take 8) =
        (((fun b => b) (ctrlBytes (DiffResult.mk [(0, 2, 0)] [] [1, 2]).ctrl)).length : Int) ∧
      offtinSpec ((p.drop 16).take 8) =
        (((fun b => b) (DiffResult.mk [(0, 2, 0)] [] [1, 2]).db).length : Int) ∧
      offtinSpec ((p.drop 24).take 8) = (([1, 2] : List Nat).length : Int) ∧
      p.drop 32 = (fun b => b) (ctrlBytes (DiffResult.mk [(0, 2, 0)] [] [1, 2]).ctrl) ++
        (fun b => b) (DiffResult.mk [(0, 2, 0)] [] [1, 2]).db ++
        (fun b => b) (DiffResult.mk [(0, 2, 0)] [] [1, 2]).eb :=
  diffb_header (fun b => b) [] [1, 2] (DiffResult.mk [(0, 2, 0)] [] [1, 2])
    (by simp only [diffb]; rw [qsufsort_nil]; decide)
    (by decide) (by decide) (by decide)

set_option maxRecDepth 1000000 in
/-- C2 counterexample: with the identity stand-in for the opaque
compressor, the patch for `old = []`, `new = [0x01, 0x02]` is 58 bytes
long (a 32-byte header followed by 24 control bytes and 2 extra bytes),
so the compressed streams cannot follow a 64-byte header and there is no
room for a SHA-256 digest at bytes 32..63: the header the code writes is
32 bytes and contains no digest. -/
theorem header_counterexample :
    Except.map List.length (patchBytes (fun b => b) [] [1, 2]) = .ok 58 ∧ 58 < 64 := by
  have hd : diffb [] [1, 2] = .ok ⟨[(0, 2, 0)], [], [1, 2]⟩ := by
    simp only [diffb]; rw [qsufsort_nil]; decide
  constructor
  · simp only [patchBytes]; rw [hd]; decide
  · norm_num

end Bsdiff
